import Mathlib

/-!
Verification development for the startup-idea-validator orchestration core
(`services/agent_service.py`).  Texts are modelled as `List Char` (Unicode
code points), Python `int` as `Int`, Python dicts as association lists in
insertion order, and fallible operations as `Except`.
-/

namespace StartupValidator

/-! ## Character-level model of the normalization pipeline (`normalize_text`) -/

/-- The regex character class `[a-z0-9]`: code points 97–122 (`a`–`z`)
and 48–57 (`0`–`9`). -/
def isLowerAlnum (c : Char) : Bool :=
  (97 ≤ c.toNat && c.toNat ≤ 122) || (48 ≤ c.toNat && c.toNat ≤ 57)

/-- The regex class `\s` / `str.strip` whitespace for ASCII text:
space (32), tab (9), newline (10), carriage return (13),
vertical tab (11), form feed (12). -/
def pyIsSpace (c : Char) : Bool :=
  c.toNat == 32 || c.toNat == 9 || c.toNat == 10 ||
    c.toNat == 13 || c.toNat == 11 || c.toNat == 12

/-- `str.lower` restricted to the ASCII letters (code points 65–90 map
to 97–122; everything else is left unchanged). -/
def pyLower (c : Char) : Char :=
  if 65 ≤ c.toNat && c.toNat ≤ 90 then Char.ofNat (c.toNat + 32) else c

/-- `re.sub(r"[^a-z0-9\s]", " ", s)`: every character outside the
lowercase-alphanumeric class and the whitespace class becomes one space. -/
def subNonAlnum (s : List Char) : List Char :=
  s.map (fun c => if isLowerAlnum c || pyIsSpace c then c else ' ')

/-- `re.sub(r"\s+", " ", s)`: each maximal run of whitespace characters is
replaced by a single space. -/
def collapseWs : List Char → List Char
  | [] => []
  | [c] => [if pyIsSpace c then ' ' else c]
  | c :: d :: rest =>
    if pyIsSpace c && pyIsSpace d then collapseWs (d :: rest)
    else (if pyIsSpace c then ' ' else c) :: collapseWs (d :: rest)

/-- `str.strip()`: drop whitespace from both ends. -/
def pyStrip (s : List Char) : List Char :=
  ((s.dropWhile pyIsSpace).reverse.dropWhile pyIsSpace).reverse

/-- `AgentService.normalize_text` (agent_service.py:119-123):
lowercase, replace every character outside `[a-z0-9\s]` with a space,
collapse whitespace runs to one space, strip the ends. -/
def normalize_text (s : List Char) : List Char :=
  pyStrip (collapseWs (subNonAlnum (s.map pyLower)))

/-- A character that can occur in a normalized text: lowercase
alphanumeric or the single space. -/
def isNormChar (c : Char) : Bool := isLowerAlnum c || c == ' '

/-- No two adjacent whitespace-class characters. -/
def NoTwoSpaces (l : List Char) : Prop :=
  List.Chain' (fun a b => pyIsSpace a = false ∨ pyIsSpace b = false) l

/-! ## Theme table and matching (`text_hits_theme`, `compute_risk_signals`) -/

/-- A theme pattern: either a literal substring, or a compiled regex.  The
single regex in the table (`go to market`) contains no metacharacters, so
its `search` is substring containment as well. -/
inductive Pattern where
  | lit (p : List Char)
  | re (p : List Char)
deriving DecidableEq

/-- Contiguous-substring test: `hasSub t p` iff `p` occurs inside `t`
(Python `p in t` on strings). -/
def hasSub : List Char → List Char → Bool
  | [], p => p.isEmpty
  | c :: rest, p => p.isPrefixOf (c :: rest) || hasSub rest p

/-- One pattern test against an (already normalized) text: `p in t` for a
literal, `p.search(t)` for a regex — both substring containment here. -/
def patternHits (t : List Char) : Pattern → Bool
  | .lit p => hasSub t p
  | .re p => hasSub t p

/-- `AgentService.text_hits_theme` (agent_service.py:125-134). -/
def text_hits_theme (text : List Char) (patterns : List Pattern) : Bool :=
  let t := normalize_text text
  patterns.any (patternHits t)

/-- One entry of the fixed theme table. -/
structure Theme where
  key : String
  label : String
  patterns : List Pattern
deriving DecidableEq

/-- The fixed 7-theme table of `compute_risk_signals` (agent_service.py:137-173). -/
def themes : List Theme := [
  { key := "distribution_adoption", label := "Distribution / adoption friction",
    patterns := [.lit "distribution".data, .lit "acquisition".data, .lit "marketing".data,
      .lit "onboarding".data, .lit "adoption".data, .lit "retention".data,
      .lit "growth".data, .re "go to market".data] },
  { key := "trust_credibility", label := "Trust / credibility",
    patterns := [.lit "trust".data, .lit "credible".data, .lit "accuracy".data,
      .lit "hallucination".data, .lit "reliability".data, .lit "confidence".data,
      .lit "wrong".data, .lit "false".data, .lit "misleading".data] },
  { key := "privacy_compliance", label := "Privacy / compliance risk",
    patterns := [.lit "privacy".data, .lit "pii".data, .lit "gdpr".data,
      .lit "hipaa".data, .lit "consent".data, .lit "compliance".data,
      .lit "data leak".data, .lit "breach".data, .lit "sensitive".data] },
  { key := "security_abuse", label := "Security / misuse / abuse",
    patterns := [.lit "security".data, .lit "abuse".data, .lit "misuse".data,
      .lit "fraud".data, .lit "spam".data, .lit "scam".data,
      .lit "attack".data, .lit "prompt injection".data, .lit "jailbreak".data] },
  { key := "moat_competition", label := "Weak moat / competition will copy",
    patterns := [.lit "moat".data, .lit "defensible".data, .lit "differentiation".data,
      .lit "commodity".data, .lit "copy".data, .lit "clone".data,
      .lit "competition".data, .lit "incumbent".data] },
  { key := "scalability_cost", label := "Scalability / cost",
    patterns := [.lit "scale".data, .lit "scalability".data, .lit "latency".data,
      .lit "cost".data, .lit "token".data, .lit "inference".data,
      .lit "throughput".data, .lit "rate limit".data] },
  { key := "product_scope", label := "Too broad / unclear scope",
    patterns := [.lit "scope".data, .lit "too broad".data, .lit "vague".data,
      .lit "unclear".data, .lit "who is this for".data, .lit "not specific".data,
      .lit "undefined".data] }]

/-- A critiques map (Python `Dict[str, str]`): persona → critique text, in
insertion order.  A real dict has no duplicate keys; theorems that need
that fact take a `Nodup` hypothesis on the key list. -/
abbrev CriticsMap := List (String × List Char)

/-- The critics-map entries whose text hits the theme — the loop at
agent_service.py:178-182 increments `theme_counts[key]` and appends to
`mentions[key]` exactly for these entries, in iteration order. -/
def theme_hits (critics : CriticsMap) (th : Theme) : CriticsMap :=
  critics.filter (fun pc => text_hits_theme pc.2 th.patterns)

/-- `theme_counts[th.key]` after the tally loop. -/
def theme_count (critics : CriticsMap) (th : Theme) : Nat :=
  (theme_hits critics th).length

/-- `mentions[th.key]` after the tally loop. -/
def theme_mentions (critics : CriticsMap) (th : Theme) : List String :=
  (theme_hits critics th).map Prod.fst

/-- One element of the `ranked` list built at agent_service.py:184-188. -/
structure RankedEntry where
  key : String
  label : String
  count : Nat
  personas : List String
deriving DecidableEq

/-- The dict literal built for one theme at agent_service.py:185. -/
def entryOf (critics : CriticsMap) (th : Theme) : RankedEntry :=
  { key := th.key, label := th.label,
    count := theme_count critics th, personas := theme_mentions critics th }

/-- The pre-sort list comprehension of agent_service.py:185: one entry per
theme, in theme-definition order. -/
def entriesOf (critics : CriticsMap) : List RankedEntry :=
  themes.map (entryOf critics)

/-- The sort relation of `sorted(..., key=lambda x: x["count"], reverse=True)`:
`a` may come before `b` iff `b`'s count does not exceed `a`'s. -/
def countGe (a b : RankedEntry) : Prop := b.count ≤ a.count

instance : DecidableRel countGe := fun a b => inferInstanceAs (Decidable (b.count ≤ a.count))

instance : IsTotal RankedEntry countGe := ⟨fun a b => Nat.le_total b.count a.count⟩

instance : IsTrans RankedEntry countGe := ⟨fun _ _ _ h1 h2 => le_trans h2 h1⟩

/-- The `ranked` list (agent_service.py:184-188).  Python's `sorted` is a
stable sort; `List.insertionSort` with the total preorder `countGe` is the
stable sort by count descending. -/
def ranked_themes (critics : CriticsMap) : List RankedEntry :=
  List.insertionSort countGe (entriesOf critics)

/-- The identity of a ranked entry as the claims discuss it: its theme key
together with its mention count (the `personas` list is the only field that
can depend on map iteration order). -/
def entryProj (e : RankedEntry) : String × Nat := (e.key, e.count)

/-- The sort relation `countGe` transported along `entryProj`. -/
def countGeP (a b : String × Nat) : Prop := b.2 ≤ a.2

instance : DecidableRel countGeP := fun a b => inferInstanceAs (Decidable (b.2 ≤ a.2))

instance : IsTotal (String × Nat) countGeP := ⟨fun a b => Nat.le_total b.2 a.2⟩

instance : IsTrans (String × Nat) countGeP := ⟨fun _ _ _ h1 h2 => le_trans h2 h1⟩

/-- A two-persona critiques map. -/
def critics_ab : CriticsMap := [("vc", "privacy".data), ("user", "trust".data)]

/-- The same bindings as `critics_ab` in the opposite insertion order. -/
def critics_ba : CriticsMap := [("user", "trust".data), ("vc", "privacy".data)]

/-- The result record of `compute_risk_signals` (agent_service.py:197-203). -/
structure RiskSignals where
  topThemes : List RankedEntry
  highConfidenceRisks : List RankedEntry
  themeCounts : List (String × Nat)
  threshold : Int
  confidenceNote : String
deriving DecidableEq

/-- The f-string of agent_service.py:192: the denominator is the literal `5`. -/
def highNote (top : RankedEntry) : String :=
  "High confidence risk: " ++ top.label ++ " (mentioned by " ++
    toString top.count ++ "/5 personas)."

/-- The f-string of agent_service.py:194. -/
def noConvergenceNote (threshold : Int) : String :=
  "No high-confidence convergence (no theme mentioned by ≥" ++
    toString threshold ++ " personas)."

/-- `AgentService.compute_risk_signals` (agent_service.py:136-203).
The threshold is a Python `int`, modelled as `Int` (default 3). -/
def compute_risk_signals (critics : CriticsMap) (threshold : Int := 3) : RiskSignals :=
  let ranked := ranked_themes critics
  let high_conf := ranked.filter (fun x => decide (threshold ≤ (x.count : Int)))
  { topThemes := ranked.take 3
    highConfidenceRisks := high_conf
    themeCounts := themes.map (fun th => (th.key, theme_count critics th))
    threshold := threshold
    confidenceNote :=
      match high_conf with
      | [] => noConvergenceNote threshold
      | top :: _ => highNote top }

/-! ## Persona selection and critic fan-out (`run_stress_test`) -/

/-- `available_critics` (agent_service.py:231). -/
def available_critics : List String := ["vc", "engineer", "ethicist", "user", "competitor"]

/-- The persona-selection logic of `run_stress_test` (agent_service.py:230-238):
`if not selected_critics` (None or empty) fall back to all five; filter to
valid names; if the filter empties the list, fall back to all five again. -/
def select_critics (selected : Option (List String)) : List String :=
  let sc := match selected with
    | none => available_critics
    | some l => if l.isEmpty then available_critics else l
  let filtered := sc.filter (fun c => decide (c ∈ available_critics))
  if filtered.isEmpty then available_critics else filtered

/-- Python-dict construction from a pair list: a repeated key keeps its first
insertion position and takes the value of its last occurrence
(`{name: result for name, result in zip(...)}`, agent_service.py:312). -/
def pyDictInsert (d : List (String × String)) (k v : String) : List (String × String) :=
  if d.any (fun p => p.1 == k) then d.map (fun p => if p.1 == k then (k, v) else p)
  else d ++ [(k, v)]

/-- Fold a pair list into a Python dict. -/
def pyDict (l : List (String × String)) : List (String × String) :=
  l.foldl (fun d p => pyDictInsert d p.1 p.2) []

/-- The fan-out/fan-in of `run_stress_test` (agent_service.py:301-312),
parameterized by the outcome each critic task would produce.  Returns the
pair list in gather order (one entry per task created — `critic_tasks` and
`critic_names` get one element per occurrence in the selected list) and the
resulting `critics` dict. -/
def run_critics (selected : List String) (critic : String → String) :
    List (String × String) × List (String × String) :=
  let pairs := selected.zip (selected.map critic)
  (pairs, pyDict pairs)

/-! ## Isolated critic task (`_run_isolated_critic`) -/

/-- Observable side effects of one isolated critic task. -/
inductive CriticEvent where
  | deleteAttempt (tid : String)
  | logWarning (tid : String) (msg : String)
deriving DecidableEq

/-- Outcomes the gateway produces for one isolated critic task:
thread creation, message submission in that thread, thread deletion. -/
structure CriticGateway where
  createThread : Except String String
  addMessage : String → Except String String
  deleteThread : String → Except String Unit

/-- `_run_isolated_critic` (agent_service.py:279-299): create a local
thread; inside `try`, submit the message; in `finally`, attempt deletion
once, catching and logging (but never re-raising) a deletion failure.
Python's `try/finally` runs the cleanup whether the body returned or
raised, and the body's outcome is what the caller sees. -/
def run_isolated_critic (g : CriticGateway) : Except String String × List CriticEvent :=
  match g.createThread with
  | .error e => (.error e, [])
  | .ok tid =>
    let body := g.addMessage tid
    let events :=
      match g.deleteThread tid with
      | .ok _ => [CriticEvent.deleteAttempt tid]
      | .error e => [CriticEvent.deleteAttempt tid, CriticEvent.logWarning tid e]
    (body, events)

/-! ## Response unwrapping (`run_block_async`, `ensure_assistant`) -/

/-- Python truthiness of an optional string: `None` and `""` are falsy. -/
def pyTruthy : Option String → Bool
  | none => false
  | some s => !s.isEmpty

/-- Python `a or b` on optional strings. -/
def pyOr (a b : Option String) : Option String :=
  if pyTruthy a then a else b

/-- `str(text).strip()` on an extracted value. -/
def pyStripStr (s : String) : String :=
  String.mk (pyStrip s.data)

/-- Shape of a gateway `add_message` response as the duck-typed extraction
code sees it: the `content`/`message` attributes (`getattr` with `None`
default) and, when the response is a dict, the same two keys. -/
structure MessageResp where
  attrContent : Option String
  attrMessage : Option String
  isDict : Bool
  dictContent : Option String
  dictMessage : Option String

/-- The tail of `run_block_async` (agent_service.py:107-115): try
`content` then `message`, attribute before dict key; a falsy result at
every step returns `""` — never an error. -/
def run_block_extract (r : MessageResp) : Except String String :=
  let text := pyOr r.attrContent (if r.isDict then r.dictContent else none)
  let text := if pyTruthy text then text
    else pyOr r.attrMessage (if r.isDict then r.dictMessage else none)
  if pyTruthy text then .ok (pyStripStr (text.getD "")) else .ok ""

/-- Shape of a `create_assistant` response: `id`/`assistant_id` attributes
and, for a dict response, the same two keys. -/
structure AssistantResp where
  attrId : Option String
  attrAssistantId : Option String
  isDict : Bool
  dictId : Option String
  dictAssistantId : Option String

/-- The extraction tail of `ensure_assistant` (agent_service.py:79-89):
attribute fallbacks, then dict fallbacks, and a `RuntimeError` when no id
can be extracted at all. -/
def ensure_assistant_extract (a : AssistantResp) : Except String String :=
  let i := pyOr a.attrId a.attrAssistantId
  let i := if pyTruthy i then i
    else if a.isDict then pyOr a.dictId a.dictAssistantId else none
  if pyTruthy i then .ok (i.getD "")
  else .error "Could not read assistantId from Backboard create_assistant response."

/-! ## Spec-side restatement of the normalization pipeline -/

/-- Spec step: lowercase the text. -/
def spec_lowercase (s : List Char) : List Char := s.map pyLower

/-- Spec step: replace every character outside lowercase letters, digits
and whitespace with a single space. -/
def spec_replace_outside (s : List Char) : List Char :=
  s.map (fun c => if isLowerAlnum c || pyIsSpace c then c else ' ')

/-- Spec step: collapse every run of whitespace into one space. -/
def spec_collapse_runs : List Char → List Char
  | [] => []
  | c :: rest =>
    if pyIsSpace c then ' ' :: spec_collapse_runs (rest.dropWhile pyIsSpace)
    else c :: spec_collapse_runs rest
termination_by s => s.length
decreasing_by
  · simp only [List.length_cons]
    have := (List.dropWhile_suffix (l := rest) pyIsSpace).length_le
    omega
  · simp only [List.length_cons]
    omega

/-- Spec step: trim leading and trailing whitespace. -/
def spec_trim_ends (s : List Char) : List Char :=
  ((s.dropWhile pyIsSpace).reverse.dropWhile pyIsSpace).reverse

/-! ## Theorems -/

/-- A concrete gateway whose submission and deletion both fail. -/
def failingGateway : CriticGateway :=
  { createThread := .ok "t1"
    addMessage := fun _ => .error "submit failed"
    deleteThread := fun _ => .error "delete failed" }

/-- Recognizer for deletion attempts among critic events. -/
def isDeleteAttempt : CriticEvent → Bool
  | .deleteAttempt _ => true
  | .logWarning _ _ => false

/-- Stated from the claim wording of C1: a confidence note whose denominator
is the number of personas actually present in the critiques map. -/
def claim_high_note (top : RankedEntry) (personaCount : Nat) : String :=
  "High confidence risk: " ++ top.label ++ " (mentioned by " ++
    toString top.count ++ "/" ++ toString personaCount ++ " personas)."

/-- A concrete critiques map with a single persona whose critique mentions
privacy. -/
def critics_one : CriticsMap := [("vc", "privacy".data)]

/-- A concrete critiques map where three personas mention privacy. -/
def critics_priv3 : CriticsMap :=
  [("vc", "privacy".data), ("engineer", "privacy".data), ("user", "privacy".data)]

/-- The `privacy_compliance` entry of the theme table. -/
def privacy_theme : Theme := themes.get ⟨2, by decide⟩

/-- C1 counterexample: with one persona in the map and threshold 1, the code
emits a note with denominator 5, not the number of personas present (1), so
the claimed note shape fails at this input. -/
theorem confidence_note_counterexample :
    (compute_risk_signals critics_one 1).confidenceNote ≠
      (match (compute_risk_signals critics_one 1).highConfidenceRisks with
        | [] => noConvergenceNote 1
        | top :: _ => claim_high_note top critics_one.length) := by
  decide

/-- C1 amended: if `highConfidenceRisks` is non-empty the note names the
top entry's label and its count with the literal denominator 5 (independent
of the number of personas in the map); otherwise it states that no theme
reached the threshold, naming the threshold value. -/
theorem confidence_note_shape (critics : CriticsMap) (threshold : Int) :
    (compute_risk_signals critics threshold).confidenceNote =
      match (compute_risk_signals critics threshold).highConfidenceRisks with
      | [] => noConvergenceNote threshold
      | top :: _ => highNote top := rfl

/-- C2: a theme whose distinct-persona mention count equals the threshold
appears in `highConfidenceRisks`, and one whose count is threshold − 1 does
not. -/
theorem threshold_boundary (critics : CriticsMap) (threshold : Int) (th : Theme)
    (hth : th ∈ themes) :
    ((theme_count critics th : Int) = threshold →
      th.key ∈ ((compute_risk_signals critics threshold).highConfidenceRisks.map RankedEntry.key)) ∧
    ((theme_count critics th : Int) = threshold - 1 →
      th.key ∉ ((compute_risk_signals critics threshold).highConfidenceRisks.map RankedEntry.key)) := by
  have hhigh : (compute_risk_signals critics threshold).highConfidenceRisks
      = (ranked_themes critics).filter (fun x => decide (threshold ≤ (x.count : Int))) := rfl
  constructor
  · intro hc
    refine List.mem_map.mpr ⟨entryOf critics th, ?_, rfl⟩
    rw [hhigh]
    refine List.mem_filter.mpr ⟨?_, ?_⟩
    · exact (List.mem_insertionSort _).mpr (List.mem_map_of_mem _ hth)
    · simp [entryOf, hc]
  · intro hc hmem
    rw [hhigh] at hmem
    obtain ⟨e, he, hkey⟩ := List.mem_map.mp hmem
    obtain ⟨hrank, hcnt⟩ := List.mem_filter.mp he
    obtain ⟨th2, hth2, heq⟩ := List.mem_map.mp ((List.mem_insertionSort _).mp hrank)
    have hkeys : (themes.map Theme.key).Nodup := by decide
    have hth2k : th2.key = th.key := by
      have h1 : (entryOf critics th2).key = th2.key := rfl
      rw [← hkey, ← heq, h1]
    have hteq : th2 = th := List.inj_on_of_nodup_map hkeys hth2 hth hth2k
    subst hteq
    rw [← heq] at hcnt
    simp only [entryOf, decide_eq_true_eq] at hcnt
    omega

/-- Witness for C2 at three personas all mentioning privacy, threshold 3. -/
theorem threshold_boundary_witness :
    privacy_theme.key ∈
      ((compute_risk_signals critics_priv3 3).highConfidenceRisks.map RankedEntry.key) :=
  (threshold_boundary critics_priv3 3 privacy_theme (by decide)).1 (by decide)

/-- C10: every theme entry exposed in the returned `RiskSignals` has
count equal to the length of its personas list, no repeated persona, count
bounded by the number of map entries; and the `threshold` field equals the
argument. -/
theorem risk_signals_invariants (critics : CriticsMap) (threshold : Int)
    (hnd : (critics.map Prod.fst).Nodup) :
    (∀ e, (e ∈ (compute_risk_signals critics threshold).topThemes ∨
        e ∈ (compute_risk_signals critics threshold).highConfidenceRisks) →
      e.count = e.personas.length ∧ e.personas.Nodup ∧ e.count ≤ critics.length) ∧
    (compute_risk_signals critics threshold).threshold = threshold := by
  constructor
  · intro e he
    have hrank : e ∈ ranked_themes critics := by
      rcases he with h | h
      · have h' : e ∈ (ranked_themes critics).take 3 := h
        exact List.take_subset _ _ h'
      · have h' : e ∈ (ranked_themes critics).filter
            (fun x => decide (threshold ≤ (x.count : Int))) := h
        exact List.mem_of_mem_filter h'
    obtain ⟨th, hthm, heq⟩ := List.mem_map.mp ((List.mem_insertionSort _).mp hrank)
    subst heq
    refine ⟨?_, ?_, ?_⟩
    · simp [entryOf, theme_count, theme_mentions]
    · have hsub : List.Sublist ((theme_hits critics th).map Prod.fst) (critics.map Prod.fst) :=
        (List.filter_sublist _).map Prod.fst
      exact hnd.sublist hsub
    · simpa [entryOf, theme_count, theme_hits] using
        List.length_filter_le (fun pc => text_hits_theme pc.2 th.patterns) critics
  · rfl

/-- Witness for C10 at three personas all mentioning privacy. -/
theorem risk_signals_invariants_witness :
    (∀ e, (e ∈ (compute_risk_signals critics_priv3 3).topThemes ∨
        e ∈ (compute_risk_signals critics_priv3 3).highConfidenceRisks) →
      e.count = e.personas.length ∧ e.personas.Nodup ∧ e.count ≤ critics_priv3.length) ∧
    (compute_risk_signals critics_priv3 3).threshold = 3 :=
  risk_signals_invariants critics_priv3 3 (by decide)

/-- C6: a selection list whose entries are all invalid persona names yields
exactly the same selected-persona list as no selection at all: all five
personas run. -/
theorem invalid_selection_falls_back (l : List String)
    (h : ∀ c ∈ l, c ∉ available_critics) :
    select_critics (some l) = select_critics none ∧
      select_critics (some l) = available_critics := by
  have hnone : select_critics none = available_critics := by decide
  have hsome : select_critics (some l) = available_critics := by
    rcases l with _ | ⟨a, t⟩
    · decide
    · have hfil : (a :: t).filter (fun c => decide (c ∈ available_critics)) = [] := by
        rw [List.filter_eq_nil_iff]
        intro c hc
        simpa using h c hc
      unfold select_critics
      simp [hfil]
  exact ⟨hsome.trans hnone.symm, hsome⟩

/-- Witness for C6 at the concrete all-invalid selection `["investor"]`. -/
theorem invalid_selection_falls_back_witness :
    select_critics (some ["investor"]) = select_critics none ∧
      select_critics (some ["investor"]) = available_critics :=
  invalid_selection_falls_back ["investor"] (by decide)

/-- C7: once the isolated context is created, deletion is attempted exactly
once whatever the message-submission outcome, and the returned result is
exactly the submission outcome — a deletion failure is logged but never
escalates and never alters the result. -/
theorem isolated_cleanup_once (g : CriticGateway) (tid : String)
    (h : g.createThread = .ok tid) :
    ((run_isolated_critic g).2.countP isDeleteAttempt) = 1 ∧
      (run_isolated_critic g).1 = g.addMessage tid := by
  unfold run_isolated_critic
  rw [h]
  cases hdel : g.deleteThread tid <;>
    simp [hdel, List.countP, List.countP.go, isDeleteAttempt]

/-- Witness for C7 at a gateway whose submission and deletion both fail. -/
theorem isolated_cleanup_once_witness :
    ((run_isolated_critic failingGateway).2.countP isDeleteAttempt) = 1 ∧
      (run_isolated_critic failingGateway).1 = failingGateway.addMessage "t1" :=
  isolated_cleanup_once failingGateway "t1" rfl

/-- C8: a message response with no truthy text in any extraction slot makes
`run_block_async` return `ok ""` rather than an error, while an assistant
response with no truthy id in any slot makes `ensure_assistant` raise the
fatal extraction `RuntimeError`. -/
theorem missing_text_vs_missing_id (r : MessageResp) (a : AssistantResp)
    (hr1 : pyTruthy r.attrContent = false) (hr2 : pyTruthy r.dictContent = false)
    (hr3 : pyTruthy r.attrMessage = false) (hr4 : pyTruthy r.dictMessage = false)
    (ha1 : pyTruthy a.attrId = false) (ha2 : pyTruthy a.attrAssistantId = false)
    (ha3 : pyTruthy a.dictId = false) (ha4 : pyTruthy a.dictAssistantId = false) :
    run_block_extract r = .ok "" ∧
      ensure_assistant_extract a =
        .error "Could not read assistantId from Backboard create_assistant response." := by
  have hnone : pyTruthy none = false := rfl
  refine ⟨?_, ?_⟩
  · unfold run_block_extract pyOr
    cases hd : r.isDict <;> simp [hd, hr1, hr2, hr3, hr4, hnone]
  · unfold ensure_assistant_extract pyOr
    cases hd : a.isDict <;> simp [hd, ha1, ha2, ha3, ha4, hnone]

/-- Witness for C8: empty-string content slot plus absent slots on the
message response, absent id slots on the assistant response. -/
theorem missing_text_vs_missing_id_witness :
    run_block_extract ⟨some "", none, true, none, some ""⟩ = .ok "" ∧
      ensure_assistant_extract ⟨none, some "", false, none, none⟩ =
        .error "Could not read assistantId from Backboard create_assistant response." :=
  missing_text_vs_missing_id ⟨some "", none, true, none, some ""⟩
    ⟨none, some "", false, none, none⟩
    (by decide) (by decide) (by decide) (by decide)
    (by decide) (by decide) (by decide) (by decide)

/-- Folding `pyDictInsert` over pairs with pairwise-distinct keys just
appends them: no key is ever overwritten. -/
theorem pyDict_foldl_eq_append (l : List (String × String)) :
    ∀ acc : List (String × String), (((acc ++ l).map Prod.fst).Nodup) →
      l.foldl (fun d p => pyDictInsert d p.1 p.2) acc = acc ++ l := by
  induction l with
  | nil => intro acc _; rw [List.foldl_nil, List.append_nil]
  | cons kv t ih =>
    intro acc h
    have hmap : ((acc ++ kv :: t).map Prod.fst)
        = acc.map Prod.fst ++ kv.1 :: t.map Prod.fst := by simp
    rw [hmap] at h
    have hdisj := (List.nodup_append.mp h).2.2
    have hnotin : kv.1 ∉ acc.map Prod.fst := fun hin =>
      hdisj hin (List.mem_cons_self _ _)
    have hany : acc.any (fun p => p.1 == kv.1) = false := by
      rw [List.any_eq_false]
      intro p hp hpk
      exact hnotin (eq_of_beq hpk ▸ List.mem_map_of_mem Prod.fst hp)
    have hins : pyDictInsert acc kv.1 kv.2 = acc ++ [kv] := by
      unfold pyDictInsert
      rw [hany]
      rfl
    rw [List.foldl_cons, hins, ih (acc ++ [kv]) (by simpa using h)]
    simp

/-- A pair list with pairwise-distinct keys is its own Python dict. -/
theorem pyDict_eq_self (l : List (String × String))
    (h : (l.map Prod.fst).Nodup) : pyDict l = l := by
  simpa using pyDict_foldl_eq_append l [] (by simpa using h)

/-- Looking a member key up in the zip of a list with its image finds the
image of that key. -/
theorem lookup_zip_map (l : List String) (f : String → String) (p : String)
    (hp : p ∈ l) : List.lookup p (l.zip (l.map f)) = some (f p) := by
  induction l with
  | nil => cases hp
  | cons a t ih =>
    rw [List.map_cons, List.zip_cons_cons]
    by_cases hpa : p = a
    · subst hpa
      simp [List.lookup]
    · have hb : (p == a) = false := beq_eq_false_iff_ne.mpr hpa
      rw [List.lookup_cons]
      simp only [hb]
      exact ih ((List.mem_cons.mp hp).resolve_left hpa)

/-- C9 counterexample: selecting `["vc", "vc"]` — two valid names with a
duplicate — is a run that returns normally, yet the vc critique task is
created (and its critique produced) twice, and the returned map's key list
is `["vc"]`, not the selected persona list `["vc", "vc"]`. -/
theorem fanout_duplicate_counterexample :
    select_critics (some ["vc", "vc"]) = ["vc", "vc"] ∧
    ((run_critics ["vc", "vc"] (fun _ => "")).1.map Prod.fst).count "vc" = 2 ∧
    (run_critics ["vc", "vc"] (fun _ => "")).2.map Prod.fst = ["vc"] := by
  decide

/-- C9 amended: whenever the caller-supplied selection contains no duplicate
names (in particular for the default no-selection run), the returned map's
key list equals the selected persona list exactly, each selected persona's
critique task is created exactly once, and the map records that persona's
result. -/
theorem fanout_complete (selection : Option (List String)) (critic : String → String)
    (hnd : ∀ l, selection = some l → l.Nodup) :
    ((run_critics (select_critics selection) critic).2.map Prod.fst
        = select_critics selection) ∧
    (∀ p ∈ select_critics selection,
      ((run_critics (select_critics selection) critic).1.map Prod.fst).count p = 1 ∧
      List.lookup p (run_critics (select_critics selection) critic).2
        = some (critic p)) := by
  have hsel : (select_critics selection).Nodup := by
    cases selection with
    | none => decide
    | some l =>
      have hl : l.Nodup := hnd l rfl
      rcases l with _ | ⟨a, t⟩
      · decide
      · show (if ((a :: t).filter (fun c => decide (c ∈ available_critics))).isEmpty = true
            then available_critics
            else (a :: t).filter (fun c => decide (c ∈ available_critics))).Nodup
        by_cases hf :
            ((a :: t).filter (fun c => decide (c ∈ available_critics))).isEmpty = true
        · rw [if_pos hf]; decide
        · rw [if_neg hf]; exact hl.filter _
  set sel := select_critics selection with hseldef
  have hpairs_fst : (sel.zip (sel.map critic)).map Prod.fst = sel :=
    List.map_fst_zip _ _ (by simp)
  have hdict : pyDict (sel.zip (sel.map critic)) = sel.zip (sel.map critic) :=
    pyDict_eq_self _ (by rw [hpairs_fst]; exact hsel)
  refine ⟨?_, ?_⟩
  · show (pyDict (sel.zip (sel.map critic))).map Prod.fst = sel
    rw [hdict, hpairs_fst]
  · intro p hp
    refine ⟨?_, ?_⟩
    · show ((sel.zip (sel.map critic)).map Prod.fst).count p = 1
      rw [hpairs_fst]
      exact List.count_eq_one_of_mem hsel hp
    · show List.lookup p (pyDict (sel.zip (sel.map critic))) = some (critic p)
      rw [hdict]
      exact lookup_zip_map sel critic p hp

/-- Witness for C9 (amended) at the duplicate-free selection `["vc", "user"]`. -/
theorem fanout_complete_witness :
    ((run_critics (select_critics (some ["vc", "user"])) (fun _ => "ok")).2.map Prod.fst
        = select_critics (some ["vc", "user"])) ∧
    (∀ p ∈ select_critics (some ["vc", "user"]),
      ((run_critics (select_critics (some ["vc", "user"])) (fun _ => "ok")).1.map
          Prod.fst).count p = 1 ∧
      List.lookup p (run_critics (select_critics (some ["vc", "user"])) (fun _ => "ok")).2
        = some ((fun _ => "ok") p)) :=
  fanout_complete (some ["vc", "user"]) (fun _ => "ok")
    (by intro l hl; injection hl with h; subst h; decide)

/-- The pairwise collapse of `\s+` runs agrees with the run-at-a-time
formulation. -/
theorem collapseWs_eq_spec : ∀ l : List Char, collapseWs l = spec_collapse_runs l := by
  intro l
  induction l with
  | nil => rw [spec_collapse_runs.eq_def]; rfl
  | cons c t ih =>
    cases t with
    | nil =>
      have e0 : spec_collapse_runs [c] =
          if pyIsSpace c then ' ' :: spec_collapse_runs (([] : List Char).dropWhile pyIsSpace)
          else c :: spec_collapse_runs [] := by
        rw [spec_collapse_runs.eq_def]
      rw [e0]
      cases hc : pyIsSpace c <;>
        simp [collapseWs, hc, show spec_collapse_runs [] = [] from by
          rw [spec_collapse_runs.eq_def]]
    | cons d r =>
      have e1 : spec_collapse_runs (c :: d :: r) =
          if pyIsSpace c then ' ' :: spec_collapse_runs ((d :: r).dropWhile pyIsSpace)
          else c :: spec_collapse_runs (d :: r) := by
        rw [spec_collapse_runs.eq_def]
      cases hc : pyIsSpace c
      · rw [e1, if_neg (by simp [hc])]
        rw [show collapseWs (c :: d :: r) = c :: collapseWs (d :: r) from by
          simp [collapseWs, hc]]
        rw [ih]
      · rw [e1, if_pos hc]
        cases hd : pyIsSpace d
        · rw [List.dropWhile_cons_of_neg (by simp [hd])]
          rw [show collapseWs (c :: d :: r) = ' ' :: collapseWs (d :: r) from by
            simp [collapseWs, hc, hd]]
          rw [ih]
        · rw [List.dropWhile_cons_of_pos hd]
          have h4 : spec_collapse_runs (d :: r) =
              ' ' :: spec_collapse_runs (r.dropWhile pyIsSpace) := by
            rw [spec_collapse_runs.eq_def]
            simp [hd]
          rw [show collapseWs (c :: d :: r) = collapseWs (d :: r) from by
            simp [collapseWs, hc, hd]]
          rw [ih, h4]

/-- C4: `normalize_text` equals the spec's pipeline — lowercase, replace
every character outside lowercase letters, digits and whitespace with a
single space, collapse whitespace runs to one space, trim both ends. -/
theorem normalize_matches_spec (s : List Char) :
    normalize_text s =
      spec_trim_ends (spec_collapse_runs (spec_replace_outside (spec_lowercase s))) := by
  unfold normalize_text spec_trim_ends spec_replace_outside spec_lowercase subNonAlnum pyStrip
  rw [collapseWs_eq_spec]

/-- A lowercase-alphanumeric code point is not whitespace. -/
theorem alnum_not_space {c : Char} (h : isLowerAlnum c = true) : pyIsSpace c = false := by
  simp only [isLowerAlnum, Bool.or_eq_true, Bool.and_eq_true, decide_eq_true_eq] at h
  simp only [pyIsSpace, Bool.or_eq_false_iff, beq_eq_false_iff_ne, ne_eq]
  omega

/-- A whitespace-class normalized character is the space itself. -/
theorem norm_space_eq_space {c : Char} (h1 : isNormChar c = true)
    (h2 : pyIsSpace c = true) : c = ' ' := by
  have h1' : isLowerAlnum c = true ∨ (c == ' ') = true := by simpa [isNormChar] using h1
  rcases h1' with h | h
  · rw [alnum_not_space h] at h2
    cases h2
  · exact eq_of_beq h

/-- Lowercasing fixes every normalized character. -/
theorem pyLower_norm {c : Char} (h : isNormChar c = true) : pyLower c = c := by
  unfold pyLower
  rw [if_neg]
  intro hup
  simp only [Bool.and_eq_true, decide_eq_true_eq] at hup
  have h0 : isLowerAlnum c = true ∨ (c == ' ') = true := by simpa [isNormChar] using h
  rcases h0 with h' | h'
  · simp only [isLowerAlnum, Bool.or_eq_true, Bool.and_eq_true, decide_eq_true_eq] at h'
    omega
  · rw [eq_of_beq h'] at hup
    revert hup
    decide

/-- Mapping `pyLower` over a normalized text is the identity. -/
theorem map_pyLower_norm : ∀ l : List Char, (∀ c ∈ l, isNormChar c = true) →
    l.map pyLower = l := by
  intro l
  induction l with
  | nil => intro _; rfl
  | cons a t ih =>
    intro h
    rw [List.map_cons, pyLower_norm (h a (by simp)), ih (fun c hc => h c (by simp [hc]))]

/-- The non-alphanumeric substitution fixes a normalized text. -/
theorem subNonAlnum_norm : ∀ l : List Char, (∀ c ∈ l, isNormChar c = true) →
    subNonAlnum l = l := by
  intro l
  induction l with
  | nil => intro _; rfl
  | cons a t ih =>
    intro h
    have ha : (if isLowerAlnum a || pyIsSpace a then a else ' ') = a := by
      have h0 : isLowerAlnum a = true ∨ (a == ' ') = true := by
        simpa [isNormChar] using h a (by simp)
      rcases h0 with h' | h'
      · simp [h']
      · rw [eq_of_beq h']
        decide
    have ht : subNonAlnum t = t := ih (fun c hc => h c (by simp [hc]))
    unfold subNonAlnum at ht ⊢
    rw [List.map_cons, ha, ht]

/-- Every character of the output of `subNonAlnum` is alphanumeric or
whitespace-class. -/
theorem subNonAlnum_chars (l : List Char) :
    ∀ c ∈ subNonAlnum l, (isLowerAlnum c || pyIsSpace c) = true := by
  intro c hc
  obtain ⟨a, _, ha⟩ := List.mem_map.mp hc
  by_cases h : (isLowerAlnum a || pyIsSpace a) = true
  · rw [← ha, if_pos h]
    exact h
  · rw [← ha, if_neg h]
    decide

/-- Every character the whitespace collapse produces from an
alphanumeric-or-whitespace text is normalized. -/
theorem collapseWs_all_norm : ∀ l : List Char,
    (∀ c ∈ l, (isLowerAlnum c || pyIsSpace c) = true) →
    ∀ c ∈ collapseWs l, isNormChar c = true := by
  intro l
  induction l with
  | nil => intro _ c hc; cases hc
  | cons a t ih =>
    intro h c hc
    have hhead : ∀ x, x = (if pyIsSpace a then ' ' else a) → isNormChar x = true := by
      intro x hx
      cases ha : pyIsSpace a
      · rw [hx, ha, if_neg (by simp)]
        have := h a (by simp)
        rw [ha] at this
        simp only [Bool.or_false] at this
        simp [isNormChar, this]
      · rw [hx, ha, if_pos rfl]
        decide
    cases t with
    | nil =>
      simp only [collapseWs, List.mem_singleton] at hc
      exact hhead c hc
    | cons d r =>
      have hrec := ih (fun x hx => h x (by simp [hx]))
      cases had : (pyIsSpace a && pyIsSpace d)
      · rw [show collapseWs (a :: d :: r)
            = (if pyIsSpace a then ' ' else a) :: collapseWs (d :: r) from by
          simp [collapseWs, had]] at hc
        rcases List.mem_cons.mp hc with hc | hc
        · exact hhead c hc
        · exact hrec c hc
      · rw [show collapseWs (a :: d :: r) = collapseWs (d :: r) from by
          simp [collapseWs, had]] at hc
        exact hrec c hc

/-- The whitespace collapse of a non-empty list starts with its collapsed
head. -/
theorem collapseWs_cons_head : ∀ (t : List Char) (a : Char),
    ∃ s, collapseWs (a :: t) = (if pyIsSpace a then ' ' else a) :: s := by
  intro t
  induction t with
  | nil => intro a; exact ⟨[], rfl⟩
  | cons d r ih =>
    intro a
    cases had : (pyIsSpace a && pyIsSpace d)
    · exact ⟨collapseWs (d :: r), by simp [collapseWs, had]⟩
    · have had' : pyIsSpace a = true ∧ pyIsSpace d = true := by simpa using had
      obtain ⟨ha, hd⟩ := had'
      obtain ⟨s, hs⟩ := ih d
      refine ⟨s, ?_⟩
      rw [show collapseWs (a :: d :: r) = collapseWs (d :: r) from by
        simp [collapseWs, had]]
      rw [hs, ha, hd, if_pos rfl, if_pos rfl]

/-- The whitespace collapse never produces two adjacent whitespace
characters. -/
theorem collapseWs_chain : ∀ l : List Char, NoTwoSpaces (collapseWs l) := by
  intro l
  induction l with
  | nil => exact List.chain'_nil
  | cons a t ih =>
    cases t with
    | nil =>
      exact List.chain'_singleton _
    | cons d r =>
      cases had : (pyIsSpace a && pyIsSpace d)
      · obtain ⟨s, hs⟩ := collapseWs_cons_head r d
        rw [show collapseWs (a :: d :: r)
            = (if pyIsSpace a then ' ' else a) :: collapseWs (d :: r) from by
          simp [collapseWs, had]]
        rw [hs]
        refine List.chain'_cons.mpr ⟨?_, hs ▸ ih⟩
        cases ha : pyIsSpace a
        · left
          simp [ha]
        · right
          have hd : pyIsSpace d = false := by
            rw [ha] at had
            simpa using had
          simp [hd]
      · rw [show collapseWs (a :: d :: r) = collapseWs (d :: r) from by
          simp [collapseWs, had]]
        exact ih

/-- On a normalized text with no adjacent spaces, the whitespace collapse is
the identity. -/
theorem collapseWs_fix : ∀ l : List Char, (∀ c ∈ l, isNormChar c = true) →
    NoTwoSpaces l → collapseWs l = l := by
  intro l
  induction l with
  | nil => intro _ _; rfl
  | cons a t ih =>
    intro h hch
    have hhead : (if pyIsSpace a then ' ' else a) = a := by
      cases ha : pyIsSpace a
      · simp
      · rw [if_pos rfl, norm_space_eq_space (h a (by simp)) ha]
    cases t with
    | nil =>
      show [if pyIsSpace a then ' ' else a] = [a]
      rw [hhead]
    | cons d r =>
      have hR := (List.chain'_cons.mp hch).1
      have had : (pyIsSpace a && pyIsSpace d) = false := by
        rcases hR with h' | h' <;> simp [h']
      rw [show collapseWs (a :: d :: r)
          = (if pyIsSpace a then ' ' else a) :: collapseWs (d :: r) from by
        simp [collapseWs, had]]
      rw [hhead, ih (fun c hc => h c (by simp [hc])) (List.chain'_cons.mp hch).2]

/-- The first surviving element of a whitespace `dropWhile` is not
whitespace. -/
theorem head_dropWhile_not : ∀ l : List Char, ∀ c,
    (l.dropWhile pyIsSpace).head? = some c → pyIsSpace c = false := by
  intro l
  induction l with
  | nil => intro c hc; cases hc
  | cons a t ih =>
    intro c hc
    cases ha : pyIsSpace a
    · rw [List.dropWhile_cons_of_neg (by simp [ha])] at hc
      cases hc
      exact ha
    · rw [List.dropWhile_cons_of_pos ha] at hc
      exact ih c hc

/-- A whitespace `dropWhile` fixes a list whose head is not whitespace. -/
theorem dropWhile_eq_self_of_head (l : List Char)
    (h : ∀ c, l.head? = some c → pyIsSpace c = false) :
    l.dropWhile pyIsSpace = l := by
  cases l with
  | nil => rfl
  | cons a t => exact List.dropWhile_cons_of_neg (by simp [h a rfl])

/-- Stripping fixes a list whose ends are not whitespace. -/
theorem pyStrip_eq_self (l : List Char)
    (h1 : ∀ c, l.head? = some c → pyIsSpace c = false)
    (h2 : ∀ c, l.getLast? = some c → pyIsSpace c = false) :
    pyStrip l = l := by
  unfold pyStrip
  rw [dropWhile_eq_self_of_head l h1]
  rw [dropWhile_eq_self_of_head l.reverse
    (fun c hc => h2 c (by rwa [List.head?_reverse] at hc))]
  exact List.reverse_reverse l

/-- The stripped list is a sublist of the original. -/
theorem pyStrip_sublist (l : List Char) : List.Sublist (pyStrip l) l := by
  unfold pyStrip
  have h1 : List.Sublist (l.dropWhile pyIsSpace) l :=
    (List.dropWhile_suffix pyIsSpace).sublist
  have h2 : List.Sublist ((l.dropWhile pyIsSpace).reverse.dropWhile pyIsSpace)
      (l.dropWhile pyIsSpace).reverse :=
    (List.dropWhile_suffix pyIsSpace).sublist
  have h3 := h2.reverse
  rw [List.reverse_reverse] at h3
  exact h3.trans h1

/-- Stripping preserves the no-adjacent-whitespace property. -/
theorem pyStrip_chain (l : List Char) (h : NoTwoSpaces l) :
    NoTwoSpaces (pyStrip l) := by
  unfold pyStrip
  obtain ⟨s, hs⟩ := List.dropWhile_suffix (l := l) pyIsSpace
  have hm : NoTwoSpaces (l.dropWhile pyIsSpace) := by
    rw [← hs] at h
    exact (List.chain'_append.mp h).2.1
  obtain ⟨u, hu⟩ := List.dropWhile_suffix (l := (l.dropWhile pyIsSpace).reverse) pyIsSpace
  have hmr : l.dropWhile pyIsSpace
      = ((l.dropWhile pyIsSpace).reverse.dropWhile pyIsSpace).reverse ++ u.reverse := by
    conv_lhs => rw [← List.reverse_reverse (l.dropWhile pyIsSpace), ← hu]
    rw [List.reverse_append]
  rw [hmr] at hm
  exact (List.chain'_append.mp hm).1

/-- The head of a stripped list is not whitespace. -/
theorem pyStrip_head (l : List Char) : ∀ c,
    (pyStrip l).head? = some c → pyIsSpace c = false := by
  intro c hc
  rw [pyStrip, List.head?_reverse] at hc
  have hXne : (l.dropWhile pyIsSpace).reverse.dropWhile pyIsSpace ≠ [] := by
    intro h0
    rw [h0] at hc
    cases hc
  obtain ⟨u, hu⟩ := List.dropWhile_suffix (l := (l.dropWhile pyIsSpace).reverse) pyIsSpace
  have happ : (u ++ (l.dropWhile pyIsSpace).reverse.dropWhile pyIsSpace).getLast?
      = ((l.dropWhile pyIsSpace).reverse.dropWhile pyIsSpace).getLast? :=
    List.getLast?_append_of_ne_nil u hXne
  rw [hu] at happ
  have h2 : (l.dropWhile pyIsSpace).reverse.getLast? = some c := by
    rw [happ]
    exact hc
  rw [List.getLast?_reverse] at h2
  exact head_dropWhile_not l c h2

/-- The last element of a stripped list is not whitespace. -/
theorem pyStrip_last (l : List Char) : ∀ c,
    (pyStrip l).getLast? = some c → pyIsSpace c = false := by
  intro c hc
  rw [pyStrip, List.getLast?_reverse] at hc
  exact head_dropWhile_not _ c hc

/-- C5: `normalize_text` is idempotent — applying it to any of its outputs
returns that output unchanged. -/
theorem normalize_idempotent (s : List Char) :
    normalize_text (normalize_text s) = normalize_text s := by
  set z := collapseWs (subNonAlnum (s.map pyLower)) with hz
  have hz_norm : ∀ c ∈ z, isNormChar c = true :=
    collapseWs_all_norm _ (subNonAlnum_chars _)
  have hz_chain : NoTwoSpaces z := collapseWs_chain _
  have hr_norm : ∀ c ∈ pyStrip z, isNormChar c = true :=
    fun c hc => hz_norm c ((pyStrip_sublist z).subset hc)
  have hr_chain : NoTwoSpaces (pyStrip z) := pyStrip_chain z hz_chain
  show normalize_text (pyStrip z) = pyStrip z
  unfold normalize_text
  rw [show (pyStrip z).map pyLower = pyStrip z from map_pyLower_norm _ hr_norm]
  rw [subNonAlnum_norm _ hr_norm]
  rw [collapseWs_fix _ hr_norm hr_chain]
  exact pyStrip_eq_self _ (pyStrip_head z) (pyStrip_last z)

/-- Theme counts do not depend on the iteration order of the critiques
map. -/
theorem theme_count_perm (c1 c2 : CriticsMap) (h : c1.Perm c2) (th : Theme) :
    theme_count c1 th = theme_count c2 th :=
  (h.filter _).length_eq

/-- The key/count projections of the pre-sort entries agree for permuted
critiques maps. -/
theorem entries_proj_perm (c1 c2 : CriticsMap) (h : c1.Perm c2) :
    (entriesOf c1).map entryProj = (entriesOf c2).map entryProj := by
  unfold entriesOf
  rw [List.map_map, List.map_map]
  apply List.map_congr_left
  intro th _
  show (th.key, theme_count c1 th) = (th.key, theme_count c2 th)
  rw [theme_count_perm c1 c2 h th]

/-- Projecting the ranked list commutes with sorting, because the sort
relation only inspects the count. -/
theorem ranked_map_proj (critics : CriticsMap) :
    (ranked_themes critics).map entryProj
      = List.insertionSort countGeP ((entriesOf critics).map entryProj) := by
  unfold ranked_themes
  apply List.map_insertionSort
  intro a _ b _
  exact Iff.rfl

/-- Projecting commutes with the high-confidence filter, whose predicate
only inspects the count. -/
theorem filter_map_proj (t : Int) (l : List RankedEntry) :
    (l.filter (fun x => decide (t ≤ (x.count : Int)))).map entryProj
      = (l.map entryProj).filter (fun x => decide (t ≤ (x.2 : Int))) := by
  induction l with
  | nil => rfl
  | cons a tl ih =>
    cases h : decide (t ≤ (a.count : Int))
    · have h' : decide (t ≤ (((entryProj a).2 : Nat) : Int)) = false := h
      simp [List.filter_cons, h, h', ih]
    · have h' : decide (t ≤ (((entryProj a).2 : Nat) : Int)) = true := h
      simp [List.filter_cons, h, h', ih]

/-- C3: for two critiques maps with the same bindings in different
iteration orders, the ranked theme list is identical (as key/count
sequence) — and so are the `topThemes` and `highConfidenceRisks`
projections — the ranked list is sorted by count descending, and a pair of
entries in theme-definition order whose counts do not force a swap stays in
that order (stability). -/
theorem ranking_deterministic (c1 c2 : CriticsMap) (threshold : Int)
    (hperm : c1.Perm c2) :
    (ranked_themes c1).map entryProj = (ranked_themes c2).map entryProj ∧
    ((compute_risk_signals c1 threshold).topThemes).map entryProj
      = ((compute_risk_signals c2 threshold).topThemes).map entryProj ∧
    ((compute_risk_signals c1 threshold).highConfidenceRisks).map entryProj
      = ((compute_risk_signals c2 threshold).highConfidenceRisks).map entryProj ∧
    List.Pairwise countGe (ranked_themes c1) ∧
    (∀ e1 e2 : RankedEntry, List.Sublist [e1, e2] (entriesOf c1) → countGe e1 e2 →
      List.Sublist [e1, e2] (ranked_themes c1)) := by
  have hranked : (ranked_themes c1).map entryProj = (ranked_themes c2).map entryProj := by
    rw [ranked_map_proj, ranked_map_proj, entries_proj_perm c1 c2 hperm]
  refine ⟨hranked, ?_, ?_, ?_, ?_⟩
  · show ((ranked_themes c1).take 3).map entryProj
      = ((ranked_themes c2).take 3).map entryProj
    rw [List.map_take, List.map_take, hranked]
  · show ((ranked_themes c1).filter (fun x => decide (threshold ≤ (x.count : Int)))).map entryProj
      = ((ranked_themes c2).filter (fun x => decide (threshold ≤ (x.count : Int)))).map entryProj
    rw [filter_map_proj, filter_map_proj, hranked]
  · exact List.sorted_insertionSort countGe (entriesOf c1)
  · intro e1 e2 hsub hge
    exact List.pair_sublist_insertionSort hge hsub

/-- Witness for C3 at a two-persona map and its reversal. -/
theorem ranking_deterministic_witness :
    (ranked_themes critics_ab).map entryProj = (ranked_themes critics_ba).map entryProj ∧
    ((compute_risk_signals critics_ab 3).topThemes).map entryProj
      = ((compute_risk_signals critics_ba 3).topThemes).map entryProj ∧
    ((compute_risk_signals critics_ab 3).highConfidenceRisks).map entryProj
      = ((compute_risk_signals critics_ba 3).highConfidenceRisks).map entryProj ∧
    List.Pairwise countGe (ranked_themes critics_ab) ∧
    (∀ e1 e2 : RankedEntry, List.Sublist [e1, e2] (entriesOf critics_ab) → countGe e1 e2 →
      List.Sublist [e1, e2] (ranked_themes critics_ab)) :=
  ranking_deterministic critics_ab critics_ba 3 (List.Perm.swap _ _ _)

end StartupValidator
